import Mathlib

/-!
Verification of the CDC delta replicator (`src/replicator/main.go`).

The Go source is shallowly embedded below: the schema introspection,
query-template precomputation, range-bound resolution, and per-event delta
translation are translated into executable Lean functions.  Machine integers
(Go `int`/`int64`) are modelled as `Int`; slice indexing that can panic is
modelled with `Option`.  Network/session execution is out of scope: the
translation functions return the statements (query string, bind values,
timestamp) that the source would submit.
-/

set_option maxHeartbeats 1000000

namespace Replicator

/-- Cell values carried by change events.  The claims only exercise scalar
(int/text) cells; collections bound as a single value are carried by
`BindVal.collV` below. -/
inductive Value
  | int (n : Int)
  | text (s : String)
deriving DecidableEq, Repr

/-- A value bound to a statement placeholder.  `unset` models
`gocql.UnsetValue` (leave the column unmodified), `nullV` a Go `nil`
interface value, `collV` a whole collection bound as one value and `udtV`
a whole UDT field map bound as one value. -/
inductive BindVal
  | val (v : Value)
  | collV (xs : List Value)
  | udtV (xs : List (String × Option Value))
  | nullV
  | unset
deriving DecidableEq, Repr

/-- Modelled from the spec: the CDC operation kinds of §3 (`ChangeEvent`),
with the change-log numeric codes used by the change reader library; the
source computes bound kinds by subtracting these codes
(`start.GetOperation() - scylla_cdc.RangeDeleteStartInclusive`). -/
inductive Operation
  | preImage
  | update
  | insert
  | rowDelete
  | partitionDelete
  | rangeDeleteStartInclusive
  | rangeDeleteStartExclusive
  | rangeDeleteEndInclusive
  | rangeDeleteEndExclusive
  | postImage
deriving DecidableEq, Repr

/-- Numeric code of an operation in the change log. -/
def Operation.code : Operation → Nat
  | .preImage => 0
  | .update => 1
  | .insert => 2
  | .rowDelete => 3
  | .partitionDelete => 4
  | .rangeDeleteStartInclusive => 5
  | .rangeDeleteStartExclusive => 6
  | .rangeDeleteEndInclusive => 7
  | .rangeDeleteEndExclusive => 8
  | .postImage => 9

/-- Modelled from the spec: the column-type classification (§3 `ColumnType`).
The concrete classifier (`parseType`/`TypeInfo` of the repository) is not
under `src/`; per §3, list/set/map/UDT are the cell-editable kinds and
frozen-ness is an orthogonal flag. -/
inductive CQLKind
  | scalar
  | tlist
  | tset
  | tmap
  | udt
  | tuple
deriving DecidableEq, Repr

/-- Modelled from the spec: list/set/map/UDT are collection kinds for the
`!typ.IsFrozen() && typ.Type().IsCollection()` dispatch in
`processInsertOrUpdate`; the non-frozen-UDT branch of the source is inside
that guard, so UDT counts as a collection. -/
def CQLKind.isCollection : CQLKind → Bool
  | .tlist => true
  | .tset => true
  | .tmap => true
  | .udt => true
  | _ => false

/-- Modelled from the spec: a column's resolved type descriptor (§3).
`tupleArity` is the element count of a top-level tuple column, used only by
the bind-marker rule. -/
structure TypeInfo where
  kind : CQLKind
  frozen : Bool
  tupleArity : Nat := 0
deriving DecidableEq, Repr

/-- Go zero value of the type descriptor (looked up for unknown columns). -/
def defaultTypeInfo : TypeInfo := { kind := .scalar, frozen := false }

/-- Column role in the destination table metadata (`gocql.ColumnKind`). -/
inductive ColKind
  | partitionKey
  | clusteringKey
  | regular
deriving DecidableEq, Repr

/-- One column of the destination table metadata. -/
structure ColumnMeta where
  kind : ColKind
  typ : TypeInfo
deriving DecidableEq, Repr

/-- Destination table metadata (the parts of `gocql.TableMetadata` the
source reads). -/
structure TableMeta where
  keyspace : String
  name : String
  orderedColumns : List String
  columns : List (String × ColumnMeta)
deriving DecidableEq, Repr

/-- `makeBindMarkerForType` of the source: a tuple column renders as a
parenthesized list of placeholders, everything else as a single `?`. -/
def makeBindMarkerForType (typ : TypeInfo) : String :=
  if typ.kind ≠ CQLKind.tuple then "?"
  else "(" ++ String.intercalate ", " (List.replicate typ.tupleArity "?") ++ ")"

/-- `makeBindMarkerAssignmentList` of the source. -/
def makeBindMarkerAssignmentList (types : String → TypeInfo) (columnNames : List String) : List String :=
  columnNames.map (fun name => name ++ " = " ++ makeBindMarkerForType (types name))

/-- `makeBindMarkerAssignments` of the source. -/
def makeBindMarkerAssignments (types : String → TypeInfo) (columnNames : List String) (sep : String) : String :=
  String.intercalate sep (makeBindMarkerAssignmentList types columnNames)

/-- `computeRowDeleteQuery` of the source. -/
def computeRowDeleteQuery (tableName : String) (types : String → TypeInfo)
    (pkColumns ckColumns : List String) : String :=
  "DELETE FROM " ++ tableName ++ " WHERE " ++
    makeBindMarkerAssignments types (pkColumns ++ ckColumns) " AND "

/-- `computePartitionDeleteQuery` of the source. -/
def computePartitionDeleteQuery (tableName : String) (types : String → TypeInfo)
    (pkColumns : List String) : String :=
  "DELETE FROM " ++ tableName ++ " WHERE " ++
    makeBindMarkerAssignments types pkColumns " AND "

/-- The `startOp` table of `computeRangeDeleteQueries`: `[">=", ">", ""]`
indexed by `typ % 3`. -/
def startOpOf : Nat → String
  | 0 => ">="
  | 1 => ">"
  | _ => ""

/-- The `endOp` table of `computeRangeDeleteQueries`: `["<=", "<", ""]`
indexed by `typ / 3`. -/
def endOpOf : Nat → String
  | 0 => "<="
  | 1 => "<"
  | _ => ""

/-- The body of the inner loop of `computeRangeDeleteQueries`: the query for
one clustering column `ckCol`, equality conditions `eqConds`, and combined
bound code `typ` (`typ % 3` selects the left operator, `typ / 3` the right). -/
def rangeDeleteQueryFor (tableName : String) (eqConds : List String)
    (ckCol : String) (typ : Nat) : String :=
  let s := startOpOf (typ % 3)
  let e := endOpOf (typ / 3)
  let condsWithBounds :=
    eqConds ++ (if s ≠ "" then [ckCol ++ " " ++ s ++ " ?"] else [])
            ++ (if e ≠ "" then [ckCol ++ " " ++ e ++ " ?"] else [])
  "DELETE FROM " ++ tableName ++ " WHERE " ++ String.intercalate " AND " condsWithBounds

/-- The nested loops of `computeRangeDeleteQueries`: for each clustering
column, eight templates (`typ = 0..7`), then the column joins the equality
conditions for the deeper columns. -/
def rangeDeleteLoop (tableName : String) (eqConds : List String) : List String → List String
  | [] => []
  | ckCol :: rest =>
      (List.range 8).map (rangeDeleteQueryFor tableName eqConds ckCol) ++
        rangeDeleteLoop tableName (eqConds ++ [ckCol ++ " = ?"]) rest

/-- `computeRangeDeleteQueries` of the source. -/
def computeRangeDeleteQueries (tableName : String) (types : String → TypeInfo)
    (pkColumns ckColumns : List String) : List String :=
  rangeDeleteLoop tableName (makeBindMarkerAssignmentList types pkColumns) ckColumns

/-- The column-classification loop of `NewDeltaReplicator`: walk
`OrderedColumns` and split into partition-key, clustering-key and regular
columns, preserving order. -/
def classifyColumns (meta : TableMeta) : List String × List String × List String :=
  meta.orderedColumns.foldl
    (fun acc name =>
      match (meta.columns.lookup name).map ColumnMeta.kind with
      | some ColKind.partitionKey => (acc.1 ++ [name], acc.2.1, acc.2.2)
      | some ColKind.clusteringKey => (acc.1, acc.2.1 ++ [name], acc.2.2)
      | _ => (acc.1, acc.2.1, acc.2.2 ++ [name]))
    ([], [], [])

/-- The translator state built once per table (`DeltaReplicator` of the
source, minus the session handle). -/
structure DeltaReplicator where
  tableName : String
  pkColumns : List String
  ckColumns : List String
  otherColumns : List String
  columnTypes : String → TypeInfo
  rowDeleteQueryStr : String
  partitionDeleteQueryStr : String
  rangeDeleteQueryStrs : List String

/-- `NewDeltaReplicator` of the source (always succeeds; the source returns
a nil error unconditionally). -/
def newDeltaReplicator (meta : TableMeta) : DeltaReplicator :=
  let cls := classifyColumns meta
  let tn := meta.keyspace ++ "." ++ meta.name
  let types := fun n => ((meta.columns.lookup n).map ColumnMeta.typ).getD defaultTypeInfo
  { tableName := tn
    pkColumns := cls.1
    ckColumns := cls.2.1
    otherColumns := cls.2.2
    columnTypes := types
    rowDeleteQueryStr := computeRowDeleteQuery tn types cls.1 cls.2.1
    partitionDeleteQueryStr := computePartitionDeleteQuery tn types cls.1
    rangeDeleteQueryStrs := computeRangeDeleteQueries tn types cls.1 cls.2.1 }

/-! ### Length and indexing facts about the range-delete template table -/

theorem rangeDeleteLoop_length (tableName : String) :
    ∀ (cks : List String) (eqConds : List String),
      (rangeDeleteLoop tableName eqConds cks).length = 8 * cks.length := by
  intro cks
  induction cks with
  | nil => intro eqConds; simp [rangeDeleteLoop]
  | cons ck rest ih =>
      intro eqConds
      simp [rangeDeleteLoop, ih]
      ring

theorem rangeDeleteLoop_get (tableName : String) :
    ∀ (cks : List String) (eqConds : List String) (d x : Nat),
      d < cks.length → x < 8 →
      (rangeDeleteLoop tableName eqConds cks)[8 * d + x]? =
        some (rangeDeleteQueryFor tableName
          (eqConds ++ (cks.take d).map (fun c0 => c0 ++ " = ?"))
          (cks.getD d "") x) := by
  intro cks
  induction cks with
  | nil => intro eqConds d x hd _; simp at hd
  | cons ck rest ih =>
      intro eqConds d x hd hx
      match d with
      | 0 =>
          have hlen : 8 * 0 + x < ((List.range 8).map (rangeDeleteQueryFor tableName eqConds ck)).length := by
            simpa using hx
          rw [rangeDeleteLoop, List.getElem?_append_left hlen]
          simp [hx]
      | Nat.succ d' =>
          have hge : ((List.range 8).map (rangeDeleteQueryFor tableName eqConds ck)).length ≤ 8 * (d' + 1) + x := by
            simp; omega
          rw [rangeDeleteLoop, List.getElem?_append_right hge]
          have hd' : d' < rest.length := by simpa using hd
          have hidx : 8 * (d' + 1) + x - ((List.range 8).map (rangeDeleteQueryFor tableName eqConds ck)).length
              = 8 * d' + x := by simp; omega
          rw [hidx, ih (eqConds ++ [ck ++ " = ?"]) d' x hd' hx]
          simp [List.append_assoc]

/-- Every slot of the template table holds the template of a valid
(depth, leftKind, rightKind) combination; (absent, absent) never occurs. -/
theorem rangeDeleteLoop_slot_valid (tableName : String) (cks eqConds : List String)
    (j : Nat) (hj : j < (rangeDeleteLoop tableName eqConds cks).length) :
    ∃ d lK rK, d < cks.length ∧ lK < 3 ∧ rK < 3 ∧ ¬(lK = 2 ∧ rK = 2) ∧
      (rangeDeleteLoop tableName eqConds cks)[j]? =
        some (rangeDeleteQueryFor tableName
          (eqConds ++ (cks.take d).map (fun c0 => c0 ++ " = ?"))
          (cks.getD d "") (lK + 3 * rK)) := by
  rw [rangeDeleteLoop_length] at hj
  obtain ⟨d, x, hxlt, rfl⟩ : ∃ d x, x < 8 ∧ j = 8 * d + x :=
    ⟨j / 8, j % 8, by omega, by omega⟩
  refine ⟨d, x % 3, x / 3, by omega, by omega, by omega, by omega, ?_⟩
  have hx : x % 3 + 3 * (x / 3) = x := by omega
  rw [hx]
  exact rangeDeleteLoop_get tableName cks eqConds d x (by omega) hxlt

/-- The example schema of spec §8: table `ks.t`, partition key `id` (int),
clustering key `seq` (int), regular columns `val` (int), `tags`
(non-frozen set), `items` (non-frozen list). -/
def exampleMeta : TableMeta :=
  { keyspace := "ks"
    name := "t"
    orderedColumns := ["id", "seq", "val", "tags", "items"]
    columns :=
      [("id", ⟨ColKind.partitionKey, { kind := .scalar, frozen := false }⟩),
       ("seq", ⟨ColKind.clusteringKey, { kind := .scalar, frozen := false }⟩),
       ("val", ⟨ColKind.regular, { kind := .scalar, frozen := false }⟩),
       ("tags", ⟨ColKind.regular, { kind := .tset, frozen := false }⟩),
       ("items", ⟨ColKind.regular, { kind := .tlist, frozen := false }⟩)] }

/-- The translator for the example schema. -/
def exampleReplicator : DeltaReplicator := newDeltaReplicator exampleMeta

/-- C1: for every table with K clustering columns the range-delete template
table built at construction has exactly 8·K entries; the template for
(depth d, leftKind, rightKind) sits at flat index `8*d + leftKind +
3*rightKind` (kinds: inclusive = 0, exclusive = 1, absent = 2); that index
map is injective over all valid combinations; and every slot holds the
template of a valid combination, so (absent, absent) is stored at no index
for any depth. -/
theorem rangeDelete_template_table (meta : TableMeta) :
    ((newDeltaReplicator meta).rangeDeleteQueryStrs.length
        = 8 * (newDeltaReplicator meta).ckColumns.length)
    ∧ (∀ d lK rK, d < (newDeltaReplicator meta).ckColumns.length →
        lK < 3 → rK < 3 → ¬(lK = 2 ∧ rK = 2) →
        (newDeltaReplicator meta).rangeDeleteQueryStrs[8 * d + lK + 3 * rK]? =
          some (rangeDeleteQueryFor (newDeltaReplicator meta).tableName
            (makeBindMarkerAssignmentList (newDeltaReplicator meta).columnTypes
                (newDeltaReplicator meta).pkColumns
              ++ (((newDeltaReplicator meta).ckColumns.take d).map (fun c0 => c0 ++ " = ?")))
            ((newDeltaReplicator meta).ckColumns.getD d "") (lK + 3 * rK)))
    ∧ (∀ d1 l1 r1 d2 l2 r2 : Nat,
        l1 < 3 → r1 < 3 → ¬(l1 = 2 ∧ r1 = 2) →
        l2 < 3 → r2 < 3 → ¬(l2 = 2 ∧ r2 = 2) →
        8 * d1 + l1 + 3 * r1 = 8 * d2 + l2 + 3 * r2 →
        d1 = d2 ∧ l1 = l2 ∧ r1 = r2)
    ∧ (∀ j, j < (newDeltaReplicator meta).rangeDeleteQueryStrs.length →
        ∃ d lK rK, d < (newDeltaReplicator meta).ckColumns.length ∧
          lK < 3 ∧ rK < 3 ∧ ¬(lK = 2 ∧ rK = 2) ∧
          (newDeltaReplicator meta).rangeDeleteQueryStrs[j]? =
            some (rangeDeleteQueryFor (newDeltaReplicator meta).tableName
              (makeBindMarkerAssignmentList (newDeltaReplicator meta).columnTypes
                  (newDeltaReplicator meta).pkColumns
                ++ (((newDeltaReplicator meta).ckColumns.take d).map (fun c0 => c0 ++ " = ?")))
              ((newDeltaReplicator meta).ckColumns.getD d "") (lK + 3 * rK))) := by
  refine ⟨?_, ?_, ?_, ?_⟩
  · exact rangeDeleteLoop_length _ _ _
  · intro d lK rK hd hl hr _
    have hx : 8 * d + lK + 3 * rK = 8 * d + (lK + 3 * rK) := by omega
    rw [hx]
    exact rangeDeleteLoop_get _ _ _ d (lK + 3 * rK) hd (by omega)
  · intro d1 l1 r1 d2 l2 r2 hl1 hr1 hv1 hl2 hr2 hv2 heq
    have hv1' : l1 ≠ 2 ∨ r1 ≠ 2 := by tauto
    have hv2' : l2 ≠ 2 ∨ r2 ≠ 2 := by tauto
    have hx1 : l1 + 3 * r1 < 8 := by rcases hv1' with h | h <;> omega
    have hx2 : l2 + 3 * r2 < 8 := by rcases hv2' with h | h <;> omega
    have key : d1 = d2 ∧ l1 + 3 * r1 = l2 + 3 * r2 := by omega
    have h3 : l1 = l2 ∧ r1 = r2 := by
      have := key.2
      omega
    exact ⟨key.1, h3⟩
  · intro j hj
    exact rangeDeleteLoop_slot_valid _ _ _ j hj

/-- Witness for C1 at the example schema: template index 6 (depth 0,
left inclusive, right absent) holds the left-inclusive one-column template,
matching spec §8 scenario 5. -/
theorem rangeDelete_template_table_witness :
    (newDeltaReplicator exampleMeta).rangeDeleteQueryStrs[6]? =
      some "DELETE FROM ks.t WHERE id = ? AND seq >= ?" := by
  have h := (rangeDelete_template_table exampleMeta).2.1 0 0 2
    (by decide) (by decide) (by decide) (by decide)
  norm_num at h
  rw [h]
  rfl

/-! ### Change events (spec §3) and the delta translator -/

/-- Modelled from the spec: `ScalarChange` of §3. -/
structure ScalarChange where
  isDeleted : Bool
  value : Option Value
deriving DecidableEq, Repr

/-- Modelled from the spec: `ListChange` of §3 — ordered (opaque cell key,
value) pairs for appends, cell keys for removals. -/
structure ListChange where
  isReset : Bool
  appended : List (Value × Value)
  removed : List Value
deriving DecidableEq, Repr

/-- Modelled from the spec: `SetChange`/`MapChange` of §3 (the source reads
both through the same accessor). -/
structure SetChange where
  isReset : Bool
  added : List Value
  removed : List Value
deriving DecidableEq, Repr

/-- Modelled from the spec: `UDTChange` of §3 — `addedFields` maps field
name to value, `removedFields` lists removed field indices. -/
structure UDTChange where
  isReset : Bool
  addedFields : List (String × Option Value)
  removedFields : List Nat
deriving DecidableEq, Repr

/-- Modelled from the spec: one decoded change event (§3 `ChangeEvent`):
operation kind, TTL, per-column present-or-absent values and per-column
changes.  `udtFields` carries the declared field order of UDT columns
(the source reads it from `Columns()`). -/
structure ChangeRow where
  op : Operation
  values : List (String × Value) := []
  ttl : Int := 0
  scalarChanges : List (String × ScalarChange) := []
  listChanges : List (String × ListChange) := []
  setChanges : List (String × SetChange) := []
  udtChanges : List (String × UDTChange) := []
  udtFields : List (String × List String) := []
deriving Repr

/-- `GetValue` of the change reader: present-or-absent column value. -/
def ChangeRow.getValue (c : ChangeRow) (name : String) : Option Value :=
  c.values.lookup name

/-- `GetOperation`. -/
def ChangeRow.getOperation (c : ChangeRow) : Operation := c.op

/-- `GetScalarChange`; an untouched column reads as not-deleted, no value. -/
def ChangeRow.getScalarChange (c : ChangeRow) (name : String) : ScalarChange :=
  (c.scalarChanges.lookup name).getD { isDeleted := false, value := none }

/-- `GetListChange`. -/
def ChangeRow.getListChange (c : ChangeRow) (name : String) : ListChange :=
  (c.listChanges.lookup name).getD { isReset := false, appended := [], removed := [] }

/-- `GetSetChange` (also used for map columns by the source). -/
def ChangeRow.getSetChange (c : ChangeRow) (name : String) : SetChange :=
  (c.setChanges.lookup name).getD { isReset := false, added := [], removed := [] }

/-- `GetUDTChange`. -/
def ChangeRow.getUDTChange (c : ChangeRow) (name : String) : UDTChange :=
  (c.udtChanges.lookup name).getD { isReset := false, addedFields := [], removedFields := [] }

/-- Declared field order of a UDT column (from `Columns()` type info). -/
def ChangeRow.udtFieldOrder (c : ChangeRow) (name : String) : List String :=
  (c.udtFields.lookup name).getD []

/-- `appendKeyValuesToBind` of the source: bind each named column's value,
or the unset marker when the event does not carry it. -/
def appendKeyValuesToBind (vals : List BindVal) (names : List String) (c : ChangeRow) :
    List BindVal :=
  vals ++ names.map (fun name =>
    match c.getValue name with
    | some v => BindVal.val v
    | none => BindVal.unset)

/-- `appendValueByType` of the source.  The tuple-splat path
(`v.([]interface{})` flattened element-wise) is not modelled: the source
marks tuple support as TODO and no claim involves tuple columns. -/
def appendValueByType (vals : List BindVal) (v : BindVal) (_typ : TypeInfo) : List BindVal :=
  vals ++ [v]

/-- One statement of a batch: query string and bound values
(a `gocql.Batch` entry). -/
abbrev Stmt := String × List BindVal

/-- An unlogged batch as the source submits it: entries plus the batch
timestamp set by `WithTimestamp`. -/
structure Batch where
  entries : List Stmt
  timestamp : Int
deriving DecidableEq, Repr

/-- A single (non-batched) statement execution with its timestamp. -/
structure SingleQuery where
  queryStr : String
  vals : List BindVal
  timestamp : Int
deriving DecidableEq, Repr

/-- The per-regular-column dispatch inside `processInsertOrUpdate`
(lines 379–612 of the source): returns the batch entries emitted for one
regular column. -/
def stmtsForColumn (r : DeltaReplicator) (timestamp : Int) (c : ChangeRow)
    (keyColumns : List String) (pkConditions : String) (colName : String) : List Stmt :=
  let typ := r.columnTypes colName
  let isNonFrozenCollection := !typ.frozen && typ.kind.isCollection
  if !isNonFrozenCollection then
    let scalarChange := c.getScalarChange colName
    if scalarChange.isDeleted then
      [("DELETE " ++ colName ++ " FROM " ++ r.tableName ++ " WHERE " ++ pkConditions,
        appendKeyValuesToBind [] keyColumns c)]
    else
      match scalarChange.value with
      | some v =>
          [("UPDATE " ++ r.tableName ++ " USING TTL ? SET " ++ colName ++ " = " ++
              makeBindMarkerForType typ ++ " WHERE " ++ pkConditions,
            appendKeyValuesToBind
              (appendValueByType [BindVal.val (Value.int c.ttl)] (BindVal.val v) typ)
              keyColumns c)]
      | none => []
  else if typ.kind = CQLKind.tlist then
    let listChange := c.getListChange colName
    let resetPart : List Stmt :=
      if listChange.isReset then
        let clearTimestamp := if listChange.appended ≠ [] then timestamp - 1 else timestamp
        [("DELETE " ++ colName ++ " FROM " ++ r.tableName ++ " USING TIMESTAMP ? WHERE " ++
            pkConditions,
          appendKeyValuesToBind [BindVal.val (Value.int clearTimestamp)] keyColumns c)]
      else []
    let appendPart : List Stmt :=
      listChange.appended.map (fun kv =>
        ("UPDATE " ++ r.tableName ++ " USING TTL ? SET " ++ colName ++
            "[SCYLLA_TIMEUUID_LIST_INDEX(?)] = " ++ makeBindMarkerForType typ ++ " WHERE " ++
            pkConditions,
         appendKeyValuesToBind
           (appendValueByType [BindVal.val (Value.int c.ttl), BindVal.val kv.1]
             (BindVal.val kv.2) typ)
           keyColumns c))
    let removePart : List Stmt :=
      listChange.removed.map (fun k =>
        ("UPDATE " ++ r.tableName ++ " SET " ++ colName ++
            "[SCYLLA_TIMEUUID_LIST_INDEX(?)] = null WHERE " ++ pkConditions,
         appendKeyValuesToBind [BindVal.val k] keyColumns c))
    resetPart ++ appendPart ++ removePart
  else if typ.kind = CQLKind.tset ∨ typ.kind = CQLKind.tmap then
    let setChange := c.getSetChange colName
    if setChange.isReset then
      [("UPDATE " ++ r.tableName ++ " USING TTL ? SET " ++ colName ++ " = ? WHERE " ++
          pkConditions,
        appendKeyValuesToBind
          [BindVal.val (Value.int c.ttl), BindVal.collV setChange.added] keyColumns c)]
    else
      (if setChange.added ≠ [] then
        [("UPDATE " ++ r.tableName ++ " USING TTL ? SET " ++ colName ++ " = " ++ colName ++
            " + ? WHERE " ++ pkConditions,
          appendKeyValuesToBind
            [BindVal.val (Value.int c.ttl), BindVal.collV setChange.added] keyColumns c)]
       else []) ++
      (if setChange.removed ≠ [] then
        [("UPDATE " ++ r.tableName ++ " USING TTL ? SET " ++ colName ++ " = " ++ colName ++
            " - ? WHERE " ++ pkConditions,
          appendKeyValuesToBind
            [BindVal.val (Value.int c.ttl), BindVal.collV setChange.removed] keyColumns c)]
       else [])
  else if typ.kind = CQLKind.udt then
    let udtChange := c.getUDTChange colName
    if udtChange.isReset then
      [("UPDATE " ++ r.tableName ++ " USING TTL ? SET " ++ colName ++ " = " ++
          makeBindMarkerForType typ ++ " WHERE " ++ pkConditions,
        appendKeyValuesToBind
          (appendValueByType [BindVal.val (Value.int c.ttl)]
            (BindVal.udtV udtChange.addedFields) typ)
          keyColumns c)]
    else
      let fields := c.udtFieldOrder colName
      let initVals : List (Option (Option Value)) :=
        fields.map (fun el =>
          match udtChange.addedFields.lookup el with
          | some (some v) => some (some v)
          | _ => none)
      let elementValues :=
        udtChange.removedFields.foldl (fun arr idx => arr.set idx (some none)) initVals
      (fields.zip elementValues).filterMap (fun fv =>
        match fv.2 with
        | none => none
        | some none =>
            some ("UPDATE " ++ r.tableName ++ " USING TTL ? SET " ++ colName ++ "." ++ fv.1 ++
                " = null WHERE " ++ pkConditions,
              appendKeyValuesToBind [BindVal.val (Value.int c.ttl)] keyColumns c)
        | some (some v) =>
            some ("UPDATE " ++ r.tableName ++ " USING TTL ? SET " ++ colName ++ "." ++ fv.1 ++
                " = " ++ makeBindMarkerForType typ ++ " WHERE " ++ pkConditions,
              appendKeyValuesToBind
                (appendValueByType [BindVal.val (Value.int c.ttl)] (BindVal.val v) typ)
                keyColumns c))
  else []

/-- `processInsertOrUpdate` of the source: the unlogged batch built for one
insert or update event (an insert is prefixed with the row-marker insert). -/
def processInsertOrUpdate (r : DeltaReplicator) (timestamp : Int) (isInsert : Bool)
    (c : ChangeRow) : Batch :=
  let keyColumns := r.pkColumns ++ r.ckColumns
  let insertPart : List Stmt :=
    if isInsert then
      let bindMarkers := keyColumns.map (fun columnName =>
        makeBindMarkerForType (r.columnTypes columnName))
      [("INSERT INTO " ++ r.tableName ++ " (" ++ String.intercalate ", " keyColumns ++
          ") VALUES (" ++ String.intercalate ", " bindMarkers ++ ") USING TTL ?",
        appendKeyValuesToBind [] keyColumns c ++ [BindVal.val (Value.int c.ttl)])]
    else []
  let pkConditions := makeBindMarkerAssignments r.columnTypes keyColumns " AND "
  { entries := insertPart ++
      (r.otherColumns.map (stmtsForColumn r timestamp c keyColumns pkConditions)).flatten
    timestamp := timestamp }

/-- `processUpdate` of the source. -/
def processUpdate (r : DeltaReplicator) (timestamp : Int) (c : ChangeRow) : Batch :=
  processInsertOrUpdate r timestamp false c

/-- `processInsert` of the source. -/
def processInsert (r : DeltaReplicator) (timestamp : Int) (c : ChangeRow) : Batch :=
  processInsertOrUpdate r timestamp true c

/-- `processRowDelete` of the source. -/
def processRowDelete (r : DeltaReplicator) (timestamp : Int) (c : ChangeRow) : SingleQuery :=
  { queryStr := r.rowDeleteQueryStr
    vals := appendKeyValuesToBind (appendKeyValuesToBind [] r.pkColumns c) r.ckColumns c
    timestamp := timestamp }

/-- `processPartitionDelete` of the source. -/
def processPartitionDelete (r : DeltaReplicator) (timestamp : Int) (c : ChangeRow) : SingleQuery :=
  { queryStr := r.partitionDeleteQueryStr
    vals := appendKeyValuesToBind [] r.pkColumns c
    timestamp := timestamp }

/-! ### Range-bound resolution (`processRangeDelete`) -/

/-- A Go `interface{}` value that may be nil, as bound by the resolver. -/
def optToBind : Option Value → BindVal
  | some v => BindVal.val v
  | none => BindVal.nullV

/-- Result of the clustering-column scan loop of `processRangeDelete`. -/
structure ScanOut where
  vals : List BindVal
  baseIdx : Int
  hasLeft : Bool
  hasRight : Bool
  prevRight : Option Value
deriving Repr

/-- The clustering-column scan loop of `processRangeDelete` (lines 699–737):
`i` is the index of the first column of `cks` in the full clustering key,
`pr` the `prevRight` accumulator, `hl0`/`hr0` the values the `hasLeft`/
`hasRight` variables hold when the loop runs out of columns. -/
def rangeScan (s e : ChangeRow) : List String → Nat → Option Value → Bool → Bool → ScanOut
  | [], _i, pr, hl0, hr0 => ⟨[], -1, hl0, hr0, pr⟩
  | ckCol :: rest, i, pr, _hl0, _hr0 =>
    match s.getValue ckCol, e.getValue ckCol with
    | some left, some right =>
        let out := rangeScan s e rest (i + 1) (some right) true true
        ⟨BindVal.val left :: out.vals, out.baseIdx, out.hasLeft, out.hasRight, out.prevRight⟩
    | some left, none => ⟨[BindVal.val left], (i : Int), true, false, pr⟩
    | none, some right => ⟨[BindVal.val right], (i : Int), false, true, pr⟩
    | none, none => ⟨[optToBind pr], (i : Int) - 1, true, true, pr⟩

/-- `processRangeDelete` of the source: resolves the template index and the
bind values from the start/end event pair.  The unguarded
`rangeDeleteQueryStrs[queryIdx]` slice access is modelled with `Option`
(`none` = index out of range, a Go panic). -/
def processRangeDelete (r : DeltaReplicator) (timestamp : Int) (s e : ChangeRow) :
    Option (Int × SingleQuery) :=
  let vals0 := appendKeyValuesToBind [] r.pkColumns s
  let out := rangeScan s e r.ckColumns 0 none false false
  let fixed : List BindVal × Int :=
    if out.baseIdx = -1 then
      (vals0 ++ out.vals ++ [optToBind out.prevRight], (r.ckColumns.length : Int) - 1)
    else (vals0 ++ out.vals, out.baseIdx)
  let leftOff : Int :=
    if out.hasLeft then
      (s.getOperation.code : Int) - (Operation.rangeDeleteStartInclusive.code : Int)
    else 2
  let rightOff : Int :=
    if out.hasRight then
      (e.getOperation.code : Int) - (Operation.rangeDeleteEndInclusive.code : Int)
    else 2
  let queryIdx : Int := 8 * fixed.2 + leftOff + 3 * rightOff
  if 0 ≤ queryIdx then
    match r.rangeDeleteQueryStrs[queryIdx.toNat]? with
    | some queryStr => some (queryIdx, ⟨queryStr, fixed.1, timestamp⟩)
    | none => none
  else none

/-! The spec-side description of the range-bound resolver (for the
refinement theorem of claim C2). -/

/-- Modelled from the spec (§4.4 algorithm, spec words, not the source):
scan clustering columns in key order carrying the recorded left value and
`prevRight`; the first column present on only one side gives the depth and
the single bound; a column absent on both sides makes the previous column
the two-sided ranged column; exhausting the scan makes the last column the
two-sided ranged column.  Returns (depth, left bound, right bound). -/
def specScan (s e : ChangeRow) : List String → Nat → Option Value → Option Value →
    Nat × Option Value × Option Value
  | [], i, pl, pr => (i - 1, pl, pr)
  | ckCol :: rest, i, pl, pr =>
    match s.getValue ckCol, e.getValue ckCol with
    | some left, some right => specScan s e rest (i + 1) (some left) (some right)
    | some left, none => (i, some left, none)
    | none, some right => (i, none, some right)
    | none, none => (i - 1, pl, pr)

/-- Modelled from the spec: bound kind of the left bound — absent (2)
unless the start event's sub-operation gives inclusive (0) or
exclusive (1). -/
def leftKindOf (hasL : Bool) (op : Operation) : Nat :=
  if hasL then
    match op with
    | .rangeDeleteStartInclusive => 0
    | .rangeDeleteStartExclusive => 1
    | _ => 2
  else 2

/-- Modelled from the spec: bound kind of the right bound. -/
def rightKindOf (hasR : Bool) (op : Operation) : Nat :=
  if hasR then
    match op with
    | .rangeDeleteEndInclusive => 0
    | .rangeDeleteEndExclusive => 1
    | _ => 2
  else 2

/-- Spec-side depth and bounds for a start/end pair. -/
def specDepthBounds (r : DeltaReplicator) (s e : ChangeRow) :
    Nat × Option Value × Option Value :=
  specScan s e r.ckColumns 0 none none

/-- Spec-side template index: `8*depth + leftKind + 3*rightKind`. -/
def specIndex (r : DeltaReplicator) (s e : ChangeRow) : Nat :=
  8 * (specDepthBounds r s e).1
    + leftKindOf (specDepthBounds r s e).2.1.isSome s.op
    + 3 * rightKindOf (specDepthBounds r s e).2.2.isSome e.op

/-- Spec-side bind values: pk equalities, clustering equalities below the
depth, then the left bound value if present, then the right bound value if
present. -/
def specBinds (r : DeltaReplicator) (s e : ChangeRow) : List BindVal :=
  appendKeyValuesToBind [] r.pkColumns s
    ++ (r.ckColumns.take (specDepthBounds r s e).1).map (fun c0 => optToBind (s.getValue c0))
    ++ ((specDepthBounds r s e).2.1.toList).map BindVal.val
    ++ ((specDepthBounds r s e).2.2.toList).map BindVal.val

/-! ### The `Consume` dispatch loop -/

/-- One destination-side action emitted by `Consume`. -/
inductive Action
  | batch (b : Batch)
  | single (q : SingleQuery)
deriving DecidableEq, Repr

/-- Outcome of `Consume` on one change: the emitted actions on success;
`unsupported` models the `panic("unsupported operation: ...")` default
branch; `deltaOutOfRange` the unguarded `c.Delta[pos+1]` access past the
end; `rangeIndexOutOfRange` the `rangeDeleteQueryStrs[queryIdx]` access
out of range. -/
inductive ConsumeOutcome
  | ok (actions : List Action)
  | unsupported (op : Operation)
  | deltaOutOfRange
  | rangeIndexOutOfRange
deriving DecidableEq, Repr

/-- Prepend an action to a successful outcome; errors pass through
(processing halts). -/
def pushAction (a : Action) : ConsumeOutcome → ConsumeOutcome
  | .ok actions => .ok (a :: actions)
  | o => o

/-- The `for pos < len(c.Delta)` dispatch loop of `Consume`
(lines 301–335); the operation switch is rendered as a decision chain. -/
def consumeLoop (r : DeltaReplicator) (timestamp : Int) : List ChangeRow → ConsumeOutcome
  | [] => .ok []
  | c :: rest =>
    if c.getOperation = .update then
      pushAction (.batch (processUpdate r timestamp c)) (consumeLoop r timestamp rest)
    else if c.getOperation = .insert then
      pushAction (.batch (processInsert r timestamp c)) (consumeLoop r timestamp rest)
    else if c.getOperation = .rowDelete then
      pushAction (.single (processRowDelete r timestamp c)) (consumeLoop r timestamp rest)
    else if c.getOperation = .partitionDelete then
      pushAction (.single (processPartitionDelete r timestamp c)) (consumeLoop r timestamp rest)
    else if c.getOperation = .rangeDeleteStartInclusive ∨
        c.getOperation = .rangeDeleteStartExclusive then
      match rest with
      | [] => .deltaOutOfRange
      | endc :: rest2 =>
        match processRangeDelete r timestamp c endc with
        | none => .rangeIndexOutOfRange
        | some (_, q) => pushAction (.single q) (consumeLoop r timestamp rest2)
    else .unsupported c.getOperation

/-- One change as delivered to `Consume`: its timestamp and delta rows. -/
structure Change where
  timestamp : Int
  delta : List ChangeRow
deriving Repr

/-- `Consume` of the source. -/
def consume (r : DeltaReplicator) (c : Change) : ConsumeOutcome :=
  consumeLoop r c.timestamp c.delta

/-! ### Concrete events for the spec §8 scenarios -/

/-- The row-marker insert statement an Insert event is prefixed with. -/
def rowMarkerStmt (r : DeltaReplicator) (c : ChangeRow) : Stmt :=
  ("INSERT INTO " ++ r.tableName ++ " (" ++
      String.intercalate ", " (r.pkColumns ++ r.ckColumns) ++ ") VALUES (" ++
      String.intercalate ", "
        ((r.pkColumns ++ r.ckColumns).map (fun columnName =>
          makeBindMarkerForType (r.columnTypes columnName))) ++ ") USING TTL ?",
   appendKeyValuesToBind [] (r.pkColumns ++ r.ckColumns) c ++ [BindVal.val (Value.int c.ttl)])

/-- Spec §8 scenario 1: insert id=1, seq=1, val=5, TTL=100. -/
def insertEvent : ChangeRow :=
  { op := .insert
    values := [("id", .int 1), ("seq", .int 1)]
    ttl := 100
    scalarChanges := [("val", { isDeleted := false, value := some (.int 5) })] }

/-- Spec §8 scenario 2: update deleting scalar `val`. -/
def scalarDeleteEvent : ChangeRow :=
  { op := .update
    values := [("id", .int 1), ("seq", .int 1)]
    scalarChanges := [("val", { isDeleted := true, value := none })] }

/-- Spec §8 scenario 3: update on `tags`, added a, removed b, no reset. -/
def tagsUpdateEvent : ChangeRow :=
  { op := .update
    values := [("id", .int 1), ("seq", .int 1)]
    setChanges := [("tags", { isReset := false, added := [.text "a"], removed := [.text "b"] })] }

/-- Spec §8 scenario 4: update on `items`, reset plus one appended cell. -/
def itemsResetEvent : ChangeRow :=
  { op := .update
    values := [("id", .int 1), ("seq", .int 1)]
    listChanges := [("items", { isReset := true, appended := [(.int 11, .text "x")], removed := [] })] }

/-- Spec §8 scenario 5: range-delete start event, seq=5 inclusive. -/
def rangeStartEvent : ChangeRow :=
  { op := .rangeDeleteStartInclusive
    values := [("id", .int 1), ("seq", .int 5)] }

/-- Spec §8 scenario 5: range-delete end event, no seq value. -/
def rangeEndEvent : ChangeRow :=
  { op := .rangeDeleteEndInclusive
    values := [("id", .int 1)] }

/-- A pre-image row, an operation kind the dispatch does not handle. -/
def preImageEvent : ChangeRow := { op := .preImage }

/-! ### Claims about the insert/update translation -/

/-- C4: every Insert batch begins with the row-marker insert
`INSERT INTO T (<key cols>) VALUES (<markers>) USING TTL ?` bound to the
key values followed by the TTL, before any per-column mutation, and the
Update batch holds the identical per-column mutations without the marker
(checked concretely on spec §8 scenario 1). -/
theorem insert_marker_update_none :
    (∀ (r : DeltaReplicator) (ts : Int) (c : ChangeRow),
      processInsertOrUpdate r ts true c =
        { entries := rowMarkerStmt r c :: (processInsertOrUpdate r ts false c).entries
          timestamp := ts }) ∧
    (processInsertOrUpdate exampleReplicator 99 true insertEvent).entries =
      rowMarkerStmt exampleReplicator insertEvent ::
        (processInsertOrUpdate exampleReplicator 99 false insertEvent).entries ∧
    (processInsertOrUpdate exampleReplicator 99 true insertEvent).entries =
      [("INSERT INTO ks.t (id, seq) VALUES (?, ?) USING TTL ?",
        [BindVal.val (Value.int 1), BindVal.val (Value.int 1), BindVal.val (Value.int 100)]),
       ("UPDATE ks.t USING TTL ? SET val = ? WHERE id = ? AND seq = ?",
        [BindVal.val (Value.int 100), BindVal.val (Value.int 5),
         BindVal.val (Value.int 1), BindVal.val (Value.int 1)])] ∧
    rowMarkerStmt exampleReplicator insertEvent ∉
      (processInsertOrUpdate exampleReplicator 99 false insertEvent).entries := by
  refine ⟨fun r ts c => rfl, rfl, by decide, by decide⟩

/-- C6: for a regular column whose type is scalar, frozen container or
frozen UDT: a deleted change emits exactly the single `DELETE col` statement,
a non-null replacement exactly the single `UPDATE ... SET col = ?` statement,
and neither emits none; an Update whose only change is a scalar deletion
yields exactly one statement in total (spec §8 scenario 2). -/
theorem scalar_column_statements :
    (∀ (r : DeltaReplicator) (ts : Int) (c : ChangeRow) (keyCols : List String)
        (pkc col : String),
      ((r.columnTypes col).kind = CQLKind.scalar ∨ (r.columnTypes col).frozen = true) →
      ((c.getScalarChange col).isDeleted = true →
        stmtsForColumn r ts c keyCols pkc col =
          [("DELETE " ++ col ++ " FROM " ++ r.tableName ++ " WHERE " ++ pkc,
            appendKeyValuesToBind [] keyCols c)]) ∧
      (∀ v, (c.getScalarChange col).isDeleted = false →
        (c.getScalarChange col).value = some v →
        stmtsForColumn r ts c keyCols pkc col =
          [("UPDATE " ++ r.tableName ++ " USING TTL ? SET " ++ col ++ " = " ++
              makeBindMarkerForType (r.columnTypes col) ++ " WHERE " ++ pkc,
            appendKeyValuesToBind [BindVal.val (Value.int c.ttl), BindVal.val v] keyCols c)]) ∧
      ((c.getScalarChange col).isDeleted = false →
        (c.getScalarChange col).value = none →
        stmtsForColumn r ts c keyCols pkc col = [])) ∧
    processInsertOrUpdate exampleReplicator 99 false scalarDeleteEvent =
      { entries := [("DELETE val FROM ks.t WHERE id = ? AND seq = ?",
          [BindVal.val (Value.int 1), BindVal.val (Value.int 1)])]
        timestamp := 99 } := by
  constructor
  · intro r ts c keyCols pkc col htyp
    have hguard : (!(r.columnTypes col).frozen && (r.columnTypes col).kind.isCollection)
        = false := by
      rcases htyp with h | h
      · simp [h, CQLKind.isCollection]
      · simp [h]
    refine ⟨fun hdel => ?_, fun v hdel hval => ?_, fun hdel hval => ?_⟩
    · simp [stmtsForColumn, hguard, hdel]
    · simp [stmtsForColumn, hguard, hdel, hval, appendValueByType]
    · simp [stmtsForColumn, hguard, hdel, hval]
  · decide

/-- Witness for C6: the general clause applied to the example schema's
scalar column `val` on the deletion event. -/
theorem scalar_column_statements_witness :
    stmtsForColumn exampleReplicator 99 scalarDeleteEvent ["id", "seq"]
        "id = ? AND seq = ?" "val" =
      [("DELETE val FROM ks.t WHERE id = ? AND seq = ?",
        [BindVal.val (Value.int 1), BindVal.val (Value.int 1)])] := by
  have h := (scalar_column_statements.1 exampleReplicator 99 scalarDeleteEvent
    ["id", "seq"] "id = ? AND seq = ?" "val" (Or.inl (by decide))).1 (by decide)
  rw [h]
  decide

/-- C5: for a non-frozen set or map column: reset emits exactly the single
whole-value `SET col = ?` statement; otherwise `SET col = col + ?` is
emitted exactly when the added elements are non-empty and
`SET col = col - ?` exactly when the removed elements are non-empty, and
both may coexist with no whole-column overwrite statement
(spec §8 scenario 3). -/
theorem set_map_column_statements :
    (∀ (r : DeltaReplicator) (ts : Int) (c : ChangeRow) (keyCols : List String)
        (pkc col : String),
      ((r.columnTypes col).kind = CQLKind.tset ∨ (r.columnTypes col).kind = CQLKind.tmap) →
      (r.columnTypes col).frozen = false →
      ((c.getSetChange col).isReset = true →
        stmtsForColumn r ts c keyCols pkc col =
          [("UPDATE " ++ r.tableName ++ " USING TTL ? SET " ++ col ++ " = ? WHERE " ++ pkc,
            appendKeyValuesToBind
              [BindVal.val (Value.int c.ttl), BindVal.collV (c.getSetChange col).added]
              keyCols c)]) ∧
      ((c.getSetChange col).isReset = false →
        stmtsForColumn r ts c keyCols pkc col =
          (if (c.getSetChange col).added ≠ [] then
            [("UPDATE " ++ r.tableName ++ " USING TTL ? SET " ++ col ++ " = " ++ col ++
                " + ? WHERE " ++ pkc,
              appendKeyValuesToBind
                [BindVal.val (Value.int c.ttl), BindVal.collV (c.getSetChange col).added]
                keyCols c)]
           else []) ++
          (if (c.getSetChange col).removed ≠ [] then
            [("UPDATE " ++ r.tableName ++ " USING TTL ? SET " ++ col ++ " = " ++ col ++
                " - ? WHERE " ++ pkc,
              appendKeyValuesToBind
                [BindVal.val (Value.int c.ttl), BindVal.collV (c.getSetChange col).removed]
                keyCols c)]
           else []))) ∧
    (processInsertOrUpdate exampleReplicator 99 false tagsUpdateEvent).entries =
      [("UPDATE ks.t USING TTL ? SET tags = tags + ? WHERE id = ? AND seq = ?",
        [BindVal.val (Value.int 0), BindVal.collV [Value.text "a"],
         BindVal.val (Value.int 1), BindVal.val (Value.int 1)]),
       ("UPDATE ks.t USING TTL ? SET tags = tags - ? WHERE id = ? AND seq = ?",
        [BindVal.val (Value.int 0), BindVal.collV [Value.text "b"],
         BindVal.val (Value.int 1), BindVal.val (Value.int 1)])] ∧
    "UPDATE ks.t USING TTL ? SET tags = ? WHERE id = ? AND seq = ?" ∉
      ((processInsertOrUpdate exampleReplicator 99 false tagsUpdateEvent).entries.map
        Prod.fst) := by
  refine ⟨?_, by decide, by decide⟩
  intro r ts c keyCols pkc col hkind hfrozen
  rcases hkind with h | h <;>
    refine ⟨fun hreset => ?_, fun hreset => ?_⟩ <;>
      simp [stmtsForColumn, h, hfrozen, hreset, CQLKind.isCollection]

/-- Witness for C5: the general clause applied to the example schema's
`tags` column on the scenario-3 event. -/
theorem set_map_column_statements_witness :
    stmtsForColumn exampleReplicator 99 tagsUpdateEvent ["id", "seq"]
        "id = ? AND seq = ?" "tags" =
      [("UPDATE ks.t USING TTL ? SET tags = tags + ? WHERE id = ? AND seq = ?",
        [BindVal.val (Value.int 0), BindVal.collV [Value.text "a"],
         BindVal.val (Value.int 1), BindVal.val (Value.int 1)]),
       ("UPDATE ks.t USING TTL ? SET tags = tags - ? WHERE id = ? AND seq = ?",
        [BindVal.val (Value.int 0), BindVal.collV [Value.text "b"],
         BindVal.val (Value.int 1), BindVal.val (Value.int 1)])] := by
  have h := (set_map_column_statements.1 exampleReplicator 99 tagsUpdateEvent
    ["id", "seq"] "id = ? AND seq = ?" "tags" (Or.inl (by decide)) (by decide)).2 (by decide)
  rw [h]
  decide

/-- C3: for a non-frozen list column with reset: the clear statement
`DELETE col ... USING TIMESTAMP ?` is emitted bound to the event timestamp
minus one when the event also appends cells and to the event timestamp
otherwise, placed before every per-cell append; every statement of the
batch (in particular each append) executes at the real event timestamp
(the batch timestamp); checked concretely on spec §8 scenario 4. -/
theorem list_reset_clear_then_appends :
    (∀ (r : DeltaReplicator) (ts : Int) (c : ChangeRow) (keyCols : List String)
        (pkc col : String),
      (r.columnTypes col).kind = CQLKind.tlist →
      (r.columnTypes col).frozen = false →
      (c.getListChange col).isReset = true →
      stmtsForColumn r ts c keyCols pkc col =
        ("DELETE " ++ col ++ " FROM " ++ r.tableName ++ " USING TIMESTAMP ? WHERE " ++ pkc,
          appendKeyValuesToBind
            [BindVal.val (Value.int
              (if (c.getListChange col).appended ≠ [] then ts - 1 else ts))]
            keyCols c) ::
        ((c.getListChange col).appended.map (fun kv =>
            ("UPDATE " ++ r.tableName ++ " USING TTL ? SET " ++ col ++
                "[SCYLLA_TIMEUUID_LIST_INDEX(?)] = " ++
                makeBindMarkerForType (r.columnTypes col) ++ " WHERE " ++ pkc,
             appendKeyValuesToBind
               [BindVal.val (Value.int c.ttl), BindVal.val kv.1, BindVal.val kv.2]
               keyCols c)) ++
         (c.getListChange col).removed.map (fun k =>
            ("UPDATE " ++ r.tableName ++ " SET " ++ col ++
                "[SCYLLA_TIMEUUID_LIST_INDEX(?)] = null WHERE " ++ pkc,
             appendKeyValuesToBind [BindVal.val k] keyCols c)))) ∧
    (∀ (r : DeltaReplicator) (ts : Int) (b : Bool) (c : ChangeRow),
      (processInsertOrUpdate r ts b c).timestamp = ts) ∧
    processInsertOrUpdate exampleReplicator 77 false itemsResetEvent =
      { entries :=
          [("DELETE items FROM ks.t USING TIMESTAMP ? WHERE id = ? AND seq = ?",
            [BindVal.val (Value.int 76), BindVal.val (Value.int 1), BindVal.val (Value.int 1)]),
           ("UPDATE ks.t USING TTL ? SET items[SCYLLA_TIMEUUID_LIST_INDEX(?)] = ? WHERE id = ? AND seq = ?",
            [BindVal.val (Value.int 0), BindVal.val (Value.int 11), BindVal.val (Value.text "x"),
             BindVal.val (Value.int 1), BindVal.val (Value.int 1)])]
        timestamp := 77 } := by
  refine ⟨?_, fun r ts b c => rfl, by decide⟩
  intro r ts c keyCols pkc col hkind hfrozen hreset
  have hguard : (!(r.columnTypes col).frozen && (r.columnTypes col).kind.isCollection)
      = true := by simp [hkind, hfrozen, CQLKind.isCollection]
  simp [stmtsForColumn, hguard, hkind, hfrozen, hreset, CQLKind.isCollection,
    appendValueByType]

/-- Witness for C3: the general clause applied to the example schema's
`items` column on the scenario-4 event. -/
theorem list_reset_clear_then_appends_witness :
    stmtsForColumn exampleReplicator 77 itemsResetEvent ["id", "seq"]
        "id = ? AND seq = ?" "items" =
      [("DELETE items FROM ks.t USING TIMESTAMP ? WHERE id = ? AND seq = ?",
        [BindVal.val (Value.int 76), BindVal.val (Value.int 1), BindVal.val (Value.int 1)]),
       ("UPDATE ks.t USING TTL ? SET items[SCYLLA_TIMEUUID_LIST_INDEX(?)] = ? WHERE id = ? AND seq = ?",
        [BindVal.val (Value.int 0), BindVal.val (Value.int 11), BindVal.val (Value.text "x"),
         BindVal.val (Value.int 1), BindVal.val (Value.int 1)])] := by
  have h := list_reset_clear_then_appends.1 exampleReplicator 77 itemsResetEvent
    ["id", "seq"] "id = ? AND seq = ?" "items" (by decide) (by decide) (by decide)
  rw [h]
  decide

/-! ### Consumer factory (`CreateChangeConsumer`) -/

/-- Split a character list at the first `'.'`, as
`strings.SplitN(name, ".", 2)` does. -/
def breakDot : List Char → List Char × Option (List Char)
  | [] => ([], none)
  | ch :: rest =>
      if ch = '.' then ([], some rest)
      else
        let p := breakDot rest
        (ch :: p.1, p.2)

/-- `strings.SplitN(s, ".", 2)` of the source: one piece when `s` has no
dot, otherwise the part before the first dot and the rest. -/
def splitN2 (s : String) : List String :=
  match breakDot s.data with
  | (a, none) => [String.mk a]
  | (a, some b) => [String.mk a, String.mk b]

/-- The destination catalog visible to the factory: keyspace name →
table name → table metadata (`KeyspaceMetadata`/`Tables` of the session). -/
structure Catalog where
  keyspaces : List (String × List (String × TableMeta))

/-- Catalog lookup of a qualified name: `none` when the name is not
`keyspace.table`-qualified, the keyspace is unknown or the table is absent. -/
def lookupTable (cat : Catalog) (tableName : String) : Option TableMeta :=
  match splitN2 tableName with
  | [ks, tbl] => (cat.keyspaces.lookup ks).bind (fun tables => tables.lookup tbl)
  | _ => none

/-- `CreateChangeConsumer` of the source: reject a non-qualified name,
look the keyspace and table up in the destination catalog, then build the
translator (`NewDeltaReplicator` itself never fails). -/
def createChangeConsumer (cat : Catalog) (tableName : String) :
    Except String DeltaReplicator :=
  match splitN2 tableName with
  | [ks, tbl] =>
      match cat.keyspaces.lookup ks with
      | none => .error ("keyspace does not exist: " ++ ks)
      | some tables =>
          match tables.lookup tbl with
          | none => .error ("table " ++ tableName ++ " does not exist")
          | some tmeta => .ok (newDeltaReplicator tmeta)
  | _ => .error ("table name is not fully qualified: " ++ tableName)

theorem breakDot_none_iff (l : List Char) :
    (breakDot l).2 = none ↔ '.' ∉ l := by
  induction l with
  | nil => simp [breakDot]
  | cons ch rest ih =>
      by_cases h : ch = '.'
      · subst h; simp [breakDot]
      · simp [breakDot, h, ih, Ne.symm h]

/-- C7: consumer construction fails (returns an error and no consumer)
exactly when the input name contains no `'.'` or the named table is absent
from the destination catalog. -/
theorem createChangeConsumer_error_iff (cat : Catalog) (tableName : String) :
    (∃ msg, createChangeConsumer cat tableName = .error msg) ↔
      ('.' ∉ tableName.data ∨ lookupTable cat tableName = none) := by
  rcases hbd : breakDot tableName.data with ⟨a, rest⟩
  have hdot := breakDot_none_iff tableName.data
  rw [hbd] at hdot
  cases rest with
  | none =>
      have hnd : '.' ∉ tableName.data := hdot.1 rfl
      have hsplit : splitN2 tableName = [String.mk a] := by
        simp only [splitN2, hbd]
      constructor
      · intro _; exact Or.inl hnd
      · intro _
        refine ⟨"table name is not fully qualified: " ++ tableName, ?_⟩
        simp only [createChangeConsumer, hsplit]
  | some b =>
      have hd : '.' ∈ tableName.data := by
        by_contra hc
        exact Option.noConfusion (hdot.2 hc)
      have hsplit : splitN2 tableName = [String.mk a, String.mk b] := by
        simp only [splitN2, hbd]
      simp only [createChangeConsumer, lookupTable, hsplit]
      rcases hks : cat.keyspaces.lookup (String.mk a) with _ | tables
      · simp
      · rcases htb : tables.lookup (String.mk b) with _ | tmeta
        · simp [htb]
        · simp [htb, hd]

/-- Witness for C7: a non-qualified name is rejected, and on a catalog
holding the example table the qualified name is accepted while a missing
table is rejected. -/
theorem createChangeConsumer_error_iff_witness :
    (∃ msg, createChangeConsumer (Catalog.mk [("ks", [("t", exampleMeta)])]) "kst"
      = .error msg) ∧
    (∃ msg, createChangeConsumer (Catalog.mk [("ks", [("t", exampleMeta)])]) "ks.missing"
      = .error msg) := by
  constructor
  · exact (createChangeConsumer_error_iff _ "kst").2 (Or.inl (by decide))
  · exact (createChangeConsumer_error_iff _ "ks.missing").2 (Or.inr (by decide))

/-! ### Correspondence between the scan loop and the spec-side resolver -/

/-- Relation between the code-side scan output `out` (for the clustering
suffix `cks` starting at key position `i`) and the spec-side result `sp`:
the collected bind values (with the post-loop `prevRight` fix-up) are the
equality prefix below the depth followed by the present bounds, the
`hasLeft`/`hasRight` flags mirror bound presence, and the base index
matches the depth. -/
def scanRel (s : ChangeRow) (i : Nat) (cks : List String) (out : ScanOut)
    (sp : Nat × Option Value × Option Value) : Prop :=
  (out.vals ++ (if out.baseIdx = -1 then [optToBind out.prevRight] else []) =
    (if i ≤ sp.1 then
       (cks.take (sp.1 - i)).map (fun c0 => optToBind (s.getValue c0))
         ++ sp.2.1.toList.map BindVal.val
     else [])
     ++ sp.2.2.toList.map BindVal.val)
  ∧ out.hasLeft = sp.2.1.isSome
  ∧ out.hasRight = sp.2.2.isSome
  ∧ (out.baseIdx = -1 → sp.1 = i + cks.length - 1)
  ∧ (out.baseIdx ≠ -1 → out.baseIdx = (sp.1 : Int))
  ∧ sp.1 < i + cks.length
  ∧ (sp.2.1.isSome = true ∨ sp.2.2.isSome = true)

theorem rangeScan_specScan (s e : ChangeRow) :
    ∀ (cks : List String) (i : Nat) (l0 r0 : Value), 1 ≤ i →
      scanRel s i cks (rangeScan s e cks i (some r0) true true)
        (specScan s e cks i (some l0) (some r0))
      ∧ i ≤ (specScan s e cks i (some l0) (some r0)).1 + 1
      ∧ ((specScan s e cks i (some l0) (some r0)).1 + 1 = i →
          (specScan s e cks i (some l0) (some r0)).2.1 = some l0 ∧
          (specScan s e cks i (some l0) (some r0)).2.2 = some r0) := by
  intro cks
  induction cks with
  | nil =>
      intro i l0 r0 hi
      rw [rangeScan, specScan]
      have hcond : ¬(i ≤ i - 1) := by omega
      refine ⟨⟨?_, by simp, by simp, ?_, ?_, ?_, by simp⟩, by omega, by simp⟩
      · simp [hcond, optToBind]
      · intro _
        simp
      · intro h
        exact absurd rfl h
      · simp
        omega
  | cons ck rest ih =>
      intro i l0 r0 hi
      rw [rangeScan.eq_def, specScan.eq_def]
      rcases hsv : s.getValue ck with _ | l <;> rcases hev : e.getValue ck with _ | rv <;>
        simp only [hsv, hev]
      · -- none, none: the previous column is the two-sided ranged column
        unfold scanRel
        have hcond : ¬(i ≤ i - 1) := by omega
        have hne1 : ¬((i : Int) - 1 = -1) := by omega
        refine ⟨⟨?_, by simp, by simp, ?_, ?_, ?_, by simp⟩, by omega, by simp⟩
        · simp [hcond, hne1, optToBind]
        · intro h
          have h2 : (i : Int) - 1 = -1 := h
          exact absurd h2 hne1
        · intro _
          show (i : Int) - 1 = ((i - 1 : Nat) : Int)
          omega
        · simp
          omega
      · -- none, some: bounded from the right at this column
        unfold scanRel
        refine ⟨⟨?_, by simp, by simp, ?_, ?_, ?_, by simp⟩, by omega,
          fun h => absurd h (by omega)⟩
        · have hne0 : ¬((i : Int) = -1) := by omega
          simp [hne0, optToBind]
        · intro h
          have h2 : (i : Int) = -1 := h
          exact absurd h2 (by omega)
        · intro _
          rfl
        · simp
      · -- some, none: bounded from the left at this column
        unfold scanRel
        refine ⟨⟨?_, by simp, by simp, ?_, ?_, ?_, by simp⟩, by omega,
          fun h => absurd h (by omega)⟩
        · have hne0 : ¬((i : Int) = -1) := by omega
          simp [hne0, optToBind]
        · intro h
          have h2 : (i : Int) = -1 := h
          exact absurd h2 (by omega)
        · intro _
          rfl
        · simp
      · -- some, some: equality-prefix candidate, recurse
        obtain ⟨⟨ha, hhl, hhr, hneg, hpos, hlt, hor⟩, hle, hacc⟩ :=
          ih (i + 1) l rv (by omega)
        set out2 := rangeScan s e rest (i + 1) (some rv) true true with hout2
        set sp := specScan s e rest (i + 1) (some l) (some rv) with hsp
        unfold scanRel
        refine ⟨⟨?_, hhl, hhr, ?_, hpos, ?_, hor⟩, by omega, fun h => absurd h (by omega)⟩
        · show (BindVal.val l :: out2.vals) ++
              (if out2.baseIdx = -1 then [optToBind out2.prevRight] else []) = _
          rw [List.cons_append, ha]
          have hi2 : i ≤ sp.1 := by omega
          rcases Nat.lt_or_ge sp.1 (i + 1) with hcase | hcase
          · have hsp1 : sp.1 = i := by omega
            obtain ⟨hbl, hbr⟩ := hacc (by omega)
            rw [if_pos hi2, if_neg (by omega : ¬(i + 1 ≤ sp.1)), hsp1, hbl, hbr]
            simp
          · have h1 : sp.1 - i = (sp.1 - (i + 1)) + 1 := by omega
            rw [if_pos hi2, if_pos hcase, h1, List.take_succ_cons, List.map_cons, hsv]
            simp [optToBind]
        · intro h
          have h2 := hneg h
          simp only [List.length_cons]
          omega
        · simp only [List.length_cons]
          omega

/-- The scan correspondence at the top-level call (key position 0, no
accumulators), provided the first clustering column is present on at least
one side. -/
theorem rangeScan_specScan_top (s e : ChangeRow) (cks : List String)
    (hne : cks ≠ [])
    (hfirst : (s.getValue (cks.headD "")).isSome = true ∨
      (e.getValue (cks.headD "")).isSome = true) :
    scanRel s 0 cks (rangeScan s e cks 0 none false false)
      (specScan s e cks 0 none none) := by
  match cks, hne with
  | ck :: rest, _ =>
    rw [rangeScan.eq_def, specScan.eq_def]
    rcases hsv : s.getValue ck with _ | l <;> rcases hev : e.getValue ck with _ | rv <;>
      simp only [hsv, hev]
    · -- none, none: excluded by hfirst
      exfalso
      simp only [List.headD_cons] at hfirst
      rcases hfirst with h | h
      · rw [hsv] at h
        exact Bool.noConfusion h
      · rw [hev] at h
        exact Bool.noConfusion h
    · -- none, some
      unfold scanRel
      refine ⟨?_, by simp, by simp, ?_, ?_, ?_, by simp⟩
      · simp [optToBind]
      · intro h
        have h2 : (0 : Int) = -1 := h
        exact absurd h2 (by omega)
      · intro _
        rfl
      · simp
    · -- some, none
      unfold scanRel
      refine ⟨?_, by simp, by simp, ?_, ?_, ?_, by simp⟩
      · simp [optToBind]
      · intro h
        have h2 : (0 : Int) = -1 := h
        exact absurd h2 (by omega)
      · intro _
        rfl
      · simp
    · -- some, some
      obtain ⟨⟨ha, hhl, hhr, hneg, hpos, hlt, hor⟩, hle, hacc⟩ :=
        rangeScan_specScan s e rest 1 l rv (by omega)
      set out2 := rangeScan s e rest 1 (some rv) true true with hout2
      set sp := specScan s e rest 1 (some l) (some rv) with hsp
      unfold scanRel
      refine ⟨?_, hhl, hhr, ?_, hpos, ?_, hor⟩
      · show (BindVal.val l :: out2.vals) ++
            (if out2.baseIdx = -1 then [optToBind out2.prevRight] else []) = _
        rw [List.cons_append, ha]
        have hi2 : (0 : Nat) ≤ sp.1 := by omega
        rcases Nat.lt_or_ge sp.1 1 with hcase | hcase
        · have hsp1 : sp.1 = 0 := by omega
          obtain ⟨hbl, hbr⟩ := hacc (by omega)
          rw [if_pos hi2, if_neg (by omega : ¬(1 ≤ sp.1)), hsp1, hbl, hbr]
          simp
        · have h1 : sp.1 - 0 = (sp.1 - 1) + 1 := by omega
          rw [if_pos hi2, if_pos hcase, h1, List.take_succ_cons, List.map_cons, hsv]
          simp [optToBind]
      · intro h
        have h2 := hneg h
        simp only [List.length_cons]
        omega
      · simp only [List.length_cons]
        omega

theorem leftKindOf_le (b : Bool) (op : Operation) : leftKindOf b op ≤ 2 := by
  cases b <;> cases op <;> simp [leftKindOf]

theorem rightKindOf_le (b : Bool) (op : Operation) : rightKindOf b op ≤ 2 := by
  cases b <;> cases op <;> simp [rightKindOf]

theorem leftKindOf_start_le (op : Operation)
    (h : op = Operation.rangeDeleteStartInclusive ∨ op = Operation.rangeDeleteStartExclusive) :
    leftKindOf true op ≤ 1 := by
  rcases h with h | h <;> subst h <;> simp [leftKindOf]

theorem rightKindOf_end_le (op : Operation)
    (h : op = Operation.rangeDeleteEndInclusive ∨ op = Operation.rangeDeleteEndExclusive) :
    rightKindOf true op ≤ 1 := by
  rcases h with h | h <;> subst h <;> simp [rightKindOf]

/-- C2: for any start/end pair of one clustering-range tombstone (template
table of the construction size, first clustering column present on at least
one side), `processRangeDelete` selects template index
`8*depth + leftKind + 3*rightKind` where depth and the bounds are computed
by the spec-side scan (`specScan`), bound kinds default to absent (2) unless
the event's sub-operation gives inclusive (0) or exclusive (1)
(`leftKindOf`/`rightKindOf`), and binds, in order, the partition-key
equalities, the clustering equalities below the depth, the left bound value
if present, then the right bound value if present (`specBinds`). -/
theorem processRangeDelete_resolves (r : DeltaReplicator) (ts : Int) (s e : ChangeRow)
    (hlen : r.rangeDeleteQueryStrs.length = 8 * r.ckColumns.length)
    (hs : s.op = Operation.rangeDeleteStartInclusive ∨
      s.op = Operation.rangeDeleteStartExclusive)
    (he : e.op = Operation.rangeDeleteEndInclusive ∨
      e.op = Operation.rangeDeleteEndExclusive)
    (hck : r.ckColumns ≠ [])
    (hfirst : (s.getValue (r.ckColumns.headD "")).isSome = true ∨
      (e.getValue (r.ckColumns.headD "")).isSome = true) :
    processRangeDelete r ts s e =
      some ((specIndex r s e : Int),
        { queryStr := (r.rangeDeleteQueryStrs[specIndex r s e]?).getD ""
          vals := specBinds r s e
          timestamp := ts }) := by
  obtain ⟨ha, hhl, hhr, hneg, hpos, hlt, hor⟩ :=
    rangeScan_specScan_top s e r.ckColumns hck hfirst
  set out := rangeScan s e r.ckColumns 0 none false false with hout
  set sp := specScan s e r.ckColumns 0 none none with hsp
  have hlen1 : 0 < r.ckColumns.length := List.length_pos.mpr hck
  have hsp_lt : sp.1 < r.ckColumns.length := by simpa using hlt
  -- the post-loop fix-up yields spec depth and spec binds
  have hfix2 : (if out.baseIdx = -1
      then (appendKeyValuesToBind [] r.pkColumns s ++ out.vals ++ [optToBind out.prevRight],
        (r.ckColumns.length : Int) - 1)
      else (appendKeyValuesToBind [] r.pkColumns s ++ out.vals, out.baseIdx)).2
      = (sp.1 : Int) := by
    by_cases hb : out.baseIdx = -1
    · rw [if_pos hb]
      have h2 := hneg hb
      simp only []
      omega
    · rw [if_neg hb]
      exact hpos hb
  have hfix1 : (if out.baseIdx = -1
      then (appendKeyValuesToBind [] r.pkColumns s ++ out.vals ++ [optToBind out.prevRight],
        (r.ckColumns.length : Int) - 1)
      else (appendKeyValuesToBind [] r.pkColumns s ++ out.vals, out.baseIdx)).1
      = specBinds r s e := by
    rw [specBinds]
    by_cases hb : out.baseIdx = -1
    · rw [if_pos hb]
      have ha2 := ha
      rw [if_pos hb] at ha2
      simp only []
      rw [List.append_assoc, ha2, specDepthBounds, ← hsp]
      simp [List.append_assoc]
    · rw [if_neg hb]
      have ha2 := ha
      rw [if_neg hb, List.append_nil] at ha2
      simp only []
      rw [ha2, specDepthBounds, ← hsp]
      simp [List.append_assoc]
  -- the bound-kind offsets match the spec-side kinds
  have hleft : (if out.hasLeft = true
      then (s.getOperation.code : Int) - (Operation.rangeDeleteStartInclusive.code : Int)
      else 2) = (leftKindOf sp.2.1.isSome s.op : Int) := by
    rw [hhl]
    rcases hb : sp.2.1.isSome with _ | _
    · simp [leftKindOf]
    · rcases hs with h | h <;>
        simp [leftKindOf, h, Operation.code, ChangeRow.getOperation]
  have hright : (if out.hasRight = true
      then (e.getOperation.code : Int) - (Operation.rangeDeleteEndInclusive.code : Int)
      else 2) = (rightKindOf sp.2.2.isSome e.op : Int) := by
    rw [hhr]
    rcases hb : sp.2.2.isSome with _ | _
    · simp [rightKindOf]
    · rcases he with h | h <;>
        simp [rightKindOf, h, Operation.code, ChangeRow.getOperation]
  -- the selected index is in range of the template table
  have hx : leftKindOf sp.2.1.isSome s.op + 3 * rightKindOf sp.2.2.isSome e.op ≤ 7 := by
    rcases hbr : sp.2.2.isSome with _ | _
    · have hbl : sp.2.1.isSome = true := by
        rcases hor with h | h
        · exact h
        · rw [hbr] at h; exact Bool.noConfusion h
      rw [hbl]
      have h1 := leftKindOf_start_le s.op hs
      have h2 := rightKindOf_le false e.op
      simp only [rightKindOf] at h2 ⊢
      omega
    · have h1 := leftKindOf_le sp.2.1.isSome s.op
      have h2 := rightKindOf_end_le e.op he
      omega
  have hbound : 8 * sp.1 + leftKindOf sp.2.1.isSome s.op
      + 3 * rightKindOf sp.2.2.isSome e.op < r.rangeDeleteQueryStrs.length := by
    rw [hlen]
    omega
  have hidx : specIndex r s e = 8 * sp.1 + leftKindOf sp.2.1.isSome s.op
      + 3 * rightKindOf sp.2.2.isSome e.op := by
    rw [specIndex, specDepthBounds, ← hsp]
  obtain ⟨q, hq⟩ : ∃ q, r.rangeDeleteQueryStrs[8 * sp.1 + leftKindOf sp.2.1.isSome s.op
      + 3 * rightKindOf sp.2.2.isSome e.op]? = some q :=
    ⟨_, List.getElem?_eq_getElem hbound⟩
  rw [processRangeDelete]
  rw [hfix1, hfix2, hleft, hright]
  have h0 : 0 ≤ 8 * (sp.1 : Int) + (leftKindOf sp.2.1.isSome s.op : Int)
      + 3 * (rightKindOf sp.2.2.isSome e.op : Int) := by omega
  rw [if_pos h0]
  have htoNat : (8 * (sp.1 : Int) + (leftKindOf sp.2.1.isSome s.op : Int)
      + 3 * (rightKindOf sp.2.2.isSome e.op : Int)).toNat
      = 8 * sp.1 + leftKindOf sp.2.1.isSome s.op + 3 * rightKindOf sp.2.2.isSome e.op := by
    omega
  rw [htoNat, hq, hidx, hq]
  have hcast : ((8 * sp.1 + leftKindOf sp.2.1.isSome s.op
      + 3 * rightKindOf sp.2.2.isSome e.op : Nat) : Int)
      = 8 * (sp.1 : Int) + (leftKindOf sp.2.1.isSome s.op : Int)
      + 3 * (rightKindOf sp.2.2.isSome e.op : Int) := by
    push_cast
    ring
  rw [hcast]
  rfl

/-- Witness for C2: spec §8 scenario 5 — start carries seq=5 inclusive, end
carries no seq value: depth 0, leftKind 0, rightKind 2, index 6, binding
(1, 5) against the left-inclusive template. -/
theorem processRangeDelete_resolves_witness :
    processRangeDelete exampleReplicator 77 rangeStartEvent rangeEndEvent =
      some (6, { queryStr := "DELETE FROM ks.t WHERE id = ? AND seq >= ?"
                 vals := [BindVal.val (Value.int 1), BindVal.val (Value.int 5)]
                 timestamp := 77 }) := by
  have h := processRangeDelete_resolves exampleReplicator 77 rangeStartEvent rangeEndEvent
    (by decide) (Or.inl (by decide)) (Or.inl (by decide)) (by decide) (Or.inl (by decide))
  rw [h]
  decide

/-! ### Dispatch-loop properties (`Consume`) -/

/-- Operation kinds with a case in the `Consume` dispatch switch. -/
def isDispatchHandled : Operation → Bool
  | .update => true
  | .insert => true
  | .rowDelete => true
  | .partitionDelete => true
  | .rangeDeleteStartInclusive => true
  | .rangeDeleteStartExclusive => true
  | _ => false

/-- Range-delete start kinds. -/
def isRangeDeleteStart : Operation → Bool
  | .rangeDeleteStartInclusive => true
  | .rangeDeleteStartExclusive => true
  | _ => false

/-- Range-delete end kinds. -/
def isRangeDeleteEnd : Operation → Bool
  | .rangeDeleteEndInclusive => true
  | .rangeDeleteEndExclusive => true
  | _ => false

/-- Does the dispatch loop reach an event whose kind has no case in the
switch?  The event immediately after a RangeDeleteStart is consumed as the
range-end partner and is never dispatched. -/
def reachesUnhandled : List ChangeRow → Bool
  | [] => false
  | c :: rest =>
      if isDispatchHandled c.op then
        if isRangeDeleteStart c.op then
          match rest with
          | [] => false
          | _ :: rest2 => reachesUnhandled rest2
        else reachesUnhandled rest
      else true

/-- The §3 invariant: every RangeDeleteStart is immediately followed by
exactly one RangeDeleteEnd. -/
def wellPaired : List ChangeRow → Bool
  | [] => true
  | c :: rest =>
      if isRangeDeleteStart c.op then
        match rest with
        | [] => false
        | endc :: rest2 => isRangeDeleteEnd endc.op && wellPaired rest2
      else wellPaired rest

theorem pushAction_eq_ok {a : Action} {o : ConsumeOutcome} {actions : List Action}
    (h : pushAction a o = .ok actions) : ∃ as0, o = .ok as0 := by
  cases o <;> simp_all [pushAction]

theorem pushAction_ne_deltaOOB {a : Action} {o : ConsumeOutcome}
    (h : o ≠ .deltaOutOfRange) : pushAction a o ≠ .deltaOutOfRange := by
  cases o <;> simp_all [pushAction]

theorem pushAction_eq_unsupported {a : Action} {o : ConsumeOutcome} {op : Operation}
    (h : pushAction a o = .unsupported op) : o = .unsupported op := by
  cases o <;> simp_all [pushAction]

theorem consumeLoop_not_ok_of_reachesUnhandled :
    ∀ (n : Nat) (delta : List ChangeRow), delta.length ≤ n →
      reachesUnhandled delta = true →
      ∀ (r : DeltaReplicator) (ts : Int) (actions : List Action),
        consumeLoop r ts delta ≠ .ok actions := by
  intro n
  induction n with
  | zero =>
      intro delta hlen hr
      match delta with
      | [] => simp [reachesUnhandled] at hr
      | _ :: _ => simp at hlen
  | succ n ih =>
      intro delta hlen hr r ts actions hok
      match delta with
      | [] => simp [reachesUnhandled] at hr
      | c :: rest =>
        have hlen' : rest.length ≤ n := by simp at hlen; omega
        rw [consumeLoop.eq_def] at hok
        rw [reachesUnhandled.eq_def] at hr
        rcases hoc : c.op with _ | _ | _ | _ | _ | _ | _ | _ | _ | _ <;>
          simp only [ChangeRow.getOperation, hoc, isDispatchHandled, isRangeDeleteStart,
            Bool.false_eq_true, reduceIte] at hok hr
        case preImage => exact ConsumeOutcome.noConfusion hok
        case postImage => exact ConsumeOutcome.noConfusion hok
        case rangeDeleteEndInclusive => exact ConsumeOutcome.noConfusion hok
        case rangeDeleteEndExclusive => exact ConsumeOutcome.noConfusion hok
        case update =>
            obtain ⟨as0, h0⟩ := pushAction_eq_ok hok
            exact ih rest hlen' hr r ts as0 h0
        case insert =>
            obtain ⟨as0, h0⟩ := pushAction_eq_ok hok
            exact ih rest hlen' hr r ts as0 h0
        case rowDelete =>
            obtain ⟨as0, h0⟩ := pushAction_eq_ok hok
            exact ih rest hlen' hr r ts as0 h0
        case partitionDelete =>
            obtain ⟨as0, h0⟩ := pushAction_eq_ok hok
            exact ih rest hlen' hr r ts as0 h0
        case rangeDeleteStartInclusive =>
            cases rest with
            | nil => simp at hr
            | cons endc rest2 =>
                rcases hpd : processRangeDelete r ts c endc with _ | p <;>
                  simp only [hpd] at hok hr
                · exact ConsumeOutcome.noConfusion hok
                · obtain ⟨as0, h0⟩ := pushAction_eq_ok hok
                  exact ih rest2 (by simp at hlen'; omega) hr r ts as0 h0
        case rangeDeleteStartExclusive =>
            cases rest with
            | nil => simp at hr
            | cons endc rest2 =>
                rcases hpd : processRangeDelete r ts c endc with _ | p <;>
                  simp only [hpd] at hok hr
                · exact ConsumeOutcome.noConfusion hok
                · obtain ⟨as0, h0⟩ := pushAction_eq_ok hok
                  exact ih rest2 (by simp at hlen'; omega) hr r ts as0 h0

theorem consumeLoop_unsupported_kind :
    ∀ (n : Nat) (delta : List ChangeRow), delta.length ≤ n →
      ∀ (r : DeltaReplicator) (ts : Int) (op : Operation),
        consumeLoop r ts delta = .unsupported op → isDispatchHandled op = false := by
  intro n
  induction n with
  | zero =>
      intro delta hlen r ts op h
      match delta with
      | [] => simp [consumeLoop] at h
      | _ :: _ => simp at hlen
  | succ n ih =>
      intro delta hlen r ts op h
      match delta with
      | [] => simp [consumeLoop] at h
      | c :: rest =>
        have hlen' : rest.length ≤ n := by simp at hlen; omega
        rw [consumeLoop.eq_def] at h
        rcases hoc : c.op with _ | _ | _ | _ | _ | _ | _ | _ | _ | _ <;>
          simp only [ChangeRow.getOperation, hoc] at h
        case preImage => cases h; rfl
        case postImage => cases h; rfl
        case rangeDeleteEndInclusive => cases h; rfl
        case rangeDeleteEndExclusive => cases h; rfl
        case update => exact ih rest hlen' r ts op (pushAction_eq_unsupported h)
        case insert => exact ih rest hlen' r ts op (pushAction_eq_unsupported h)
        case rowDelete => exact ih rest hlen' r ts op (pushAction_eq_unsupported h)
        case partitionDelete => exact ih rest hlen' r ts op (pushAction_eq_unsupported h)
        case rangeDeleteStartInclusive =>
            cases rest with
            | nil => exact ConsumeOutcome.noConfusion h
            | cons endc rest2 =>
                rcases hpd : processRangeDelete r ts c endc with _ | p <;>
                  simp only [hpd] at h
                · exact ConsumeOutcome.noConfusion h
                · exact ih rest2 (by simp at hlen'; omega) r ts op (pushAction_eq_unsupported h)
        case rangeDeleteStartExclusive =>
            cases rest with
            | nil => exact ConsumeOutcome.noConfusion h
            | cons endc rest2 =>
                rcases hpd : processRangeDelete r ts c endc with _ | p <;>
                  simp only [hpd] at h
                · exact ConsumeOutcome.noConfusion h
                · exact ih rest2 (by simp at hlen'; omega) r ts op (pushAction_eq_unsupported h)

/-- C8 counterexample: the delta `[rangeStartEvent, preImageEvent]` contains
a pre-image event, whose kind is outside the handled set (it is neither a
dispatched kind nor a RangeDeleteEnd), yet `Consume` silently consumes it
as the range-end partner of the preceding start and succeeds instead of
halting. -/
theorem consume_swallows_unrecognized_after_start :
    (isDispatchHandled Operation.preImage || isRangeDeleteEnd Operation.preImage) = false ∧
    preImageEvent.op = Operation.preImage ∧
    consumeLoop exampleReplicator 77 [rangeStartEvent, preImageEvent] =
      .ok [.single ⟨"DELETE FROM ks.t WHERE id = ? AND seq >= ?",
        [BindVal.val (Value.int 1), BindVal.val (Value.int 5)], 77⟩] := by
  refine ⟨by decide, by decide, by decide⟩

/-- C8 (amended): when the dispatch loop reaches an event with an operation
kind outside the handled set — where the event immediately following a
RangeDeleteStart is consumed as its range-end partner and never dispatched —
`Consume` halts (never returns success) rather than skipping it, and the
programming-error fault always carries an unhandled kind. -/
theorem consume_halts_on_reached_unrecognized :
    (∀ (r : DeltaReplicator) (ts : Int) (delta : List ChangeRow),
      reachesUnhandled delta = true →
      ∀ actions, consumeLoop r ts delta ≠ .ok actions) ∧
    (∀ (r : DeltaReplicator) (ts : Int) (delta : List ChangeRow) (op : Operation),
      consumeLoop r ts delta = .unsupported op → isDispatchHandled op = false) := by
  constructor
  · intro r ts delta hr actions
    exact consumeLoop_not_ok_of_reachesUnhandled delta.length delta le_rfl hr r ts actions
  · intro r ts delta op h
    exact consumeLoop_unsupported_kind delta.length delta le_rfl r ts op h

/-- Witness for C8 (amended): a lone pre-image event is reached and halts
processing. -/
theorem consume_halts_on_reached_unrecognized_witness :
    consumeLoop exampleReplicator 5 [preImageEvent] ≠ .ok [] :=
  consume_halts_on_reached_unrecognized.1 exampleReplicator 5 [preImageEvent] (by decide) []

theorem consumeLoop_no_deltaOOB_of_wellPaired :
    ∀ (n : Nat) (delta : List ChangeRow), delta.length ≤ n →
      wellPaired delta = true →
      ∀ (r : DeltaReplicator) (ts : Int),
        consumeLoop r ts delta ≠ .deltaOutOfRange := by
  intro n
  induction n with
  | zero =>
      intro delta hlen hw r ts
      match delta with
      | [] => simp [consumeLoop]
      | _ :: _ => simp at hlen
  | succ n ih =>
      intro delta hlen hw r ts
      match delta with
      | [] => simp [consumeLoop]
      | c :: rest =>
        have hlen' : rest.length ≤ n := by simp at hlen; omega
        rw [consumeLoop.eq_def]
        rw [wellPaired.eq_def] at hw
        rcases hoc : c.op with _ | _ | _ | _ | _ | _ | _ | _ | _ | _ <;>
          simp only [ChangeRow.getOperation, hoc, isRangeDeleteStart, Bool.false_eq_true,
            reduceIte] at hw ⊢
        case preImage => simp
        case postImage => simp
        case rangeDeleteEndInclusive => simp
        case rangeDeleteEndExclusive => simp
        case update => exact pushAction_ne_deltaOOB (ih rest hlen' hw r ts)
        case insert => exact pushAction_ne_deltaOOB (ih rest hlen' hw r ts)
        case rowDelete => exact pushAction_ne_deltaOOB (ih rest hlen' hw r ts)
        case partitionDelete => exact pushAction_ne_deltaOOB (ih rest hlen' hw r ts)
        case rangeDeleteStartInclusive =>
            cases rest with
            | nil => simp at hw
            | cons endc rest2 =>
                simp only [Bool.and_eq_true] at hw
                rcases hpd : processRangeDelete r ts c endc with _ | p <;>
                  simp only [hpd]
                · simp
                · exact pushAction_ne_deltaOOB (ih rest2 (by simp at hlen'; omega) hw.2 r ts)
        case rangeDeleteStartExclusive =>
            cases rest with
            | nil => simp at hw
            | cons endc rest2 =>
                simp only [Bool.and_eq_true] at hw
                rcases hpd : processRangeDelete r ts c endc with _ | p <;>
                  simp only [hpd]
                · simp
                · exact pushAction_ne_deltaOOB (ih rest2 (by simp at hlen'; omega) hw.2 r ts)

/-- C10: under the §3 invariant that every RangeDeleteStart is immediately
followed by exactly one RangeDeleteEnd, the unguarded `c.Delta[pos+1]`
access of `Consume` is always within bounds (the out-of-range outcome is
unreachable); without the invariant, a RangeDeleteStart as final element
makes the access out of range. -/
theorem rangeDeleteStart_pair_access_safe :
    (∀ (r : DeltaReplicator) (ts : Int) (delta : List ChangeRow),
      wellPaired delta = true → consumeLoop r ts delta ≠ .deltaOutOfRange) ∧
    consumeLoop exampleReplicator 77 [rangeStartEvent] = .deltaOutOfRange := by
  constructor
  · intro r ts delta hw
    exact consumeLoop_no_deltaOOB_of_wellPaired delta.length delta le_rfl hw r ts
  · decide

/-- Witness for C10: the invariant holds on the scenario-5 pair and the
out-of-range outcome does not occur. -/
theorem rangeDeleteStart_pair_access_safe_witness :
    consumeLoop exampleReplicator 77 [rangeStartEvent, rangeEndEvent] ≠
      ConsumeOutcome.deltaOutOfRange :=
  rangeDeleteStart_pair_access_safe.1 exampleReplicator 77 [rangeStartEvent, rangeEndEvent]
    (by decide)

/-! ### Translator-state immutability -/

/-- `Consume` as a state transformer on the translator.  The source method
reads receiver fields but contains no assignment to any of them (the only
field writes are in `NewDeltaReplicator`), so the post-state is the
receiver unchanged. -/
def consumeStep (r : DeltaReplicator) (c : Change) : DeltaReplicator × ConsumeOutcome :=
  (r, consume r c)

/-- A sequence of `Consume` calls threading the translator state. -/
def consumeAll (r : DeltaReplicator) : List Change → DeltaReplicator × List ConsumeOutcome
  | [] => (r, [])
  | c :: cs =>
      let st := consumeStep r c
      let rest := consumeAll st.1 cs
      (rest.1, st.2 :: rest.2)

/-- C9: across any sequence of `Consume` calls the translator state — key
column lists, column-type map and the precomputed row/partition/range
delete query strings — is unchanged, and every call's outcome is computed
from the original construction-time state (no other state persists across
events). -/
theorem translator_state_immutable (r : DeltaReplicator) (cs : List Change) :
    (consumeAll r cs).1 = r ∧
    (consumeAll r cs).1.pkColumns = r.pkColumns ∧
    (consumeAll r cs).1.ckColumns = r.ckColumns ∧
    (consumeAll r cs).1.otherColumns = r.otherColumns ∧
    (consumeAll r cs).1.columnTypes = r.columnTypes ∧
    (consumeAll r cs).1.rowDeleteQueryStr = r.rowDeleteQueryStr ∧
    (consumeAll r cs).1.partitionDeleteQueryStr = r.partitionDeleteQueryStr ∧
    (consumeAll r cs).1.rangeDeleteQueryStrs = r.rangeDeleteQueryStrs ∧
    (consumeAll r cs).2 = cs.map (fun c => consume r c) := by
  have h : (consumeAll r cs).1 = r ∧ (consumeAll r cs).2 = cs.map (fun c => consume r c) := by
    induction cs with
    | nil => simp [consumeAll]
    | cons c cs ih => simpa [consumeAll, consumeStep] using ih
  refine ⟨h.1, ?_, ?_, ?_, ?_, ?_, ?_, ?_, h.2⟩ <;> rw [h.1]

end Replicator
